import Mathlib

/-!
Verification of the Food-analyzer backend (src/Backend/app.js).

The development shallowly embeds the backend's core logic:
`extractJSON`, `safeJSONParse`, and the aggregation / response logic of the
`POST /analyze-food` handler.  JavaScript numbers are idealized as finite
rationals (`ℚ`), with `NaN` modelled as `Option.none`; nonfinite values and
`NaN` both serialize to JSON `null`, which is what the embedding observes.
All arithmetic is built from `Rat.divInt` and integer operations so that
concrete runs reduce inside the kernel; bridge lemmas relate these
operations to the ordinary Mathlib operations on `ℚ`.
-/

namespace FoodAnalyzer

/-- JSON values as produced by `JSON.parse`.  Objects keep their fields in
    textual order; as in JavaScript, a lookup returns the last binding of a
    duplicated key. -/
inductive Json where
  | null
  | bool (b : Bool)
  | num (q : ℚ)
  | str (s : String)
  | arr (xs : List Json)
  | obj (fields : List (String × Json))

/-- Errors thrown by the embedded backend code. -/
inductive JsError where
  | extractionError (msg : String)
  | parseError
  | typeError
deriving DecidableEq

/-- Rational addition computed through `Rat.divInt`, kernel-reducible. -/
def qAdd (a b : ℚ) : ℚ := Rat.divInt (a.num * b.den + b.num * a.den) (a.den * b.den)

/-- Rational negation computed through `Rat.divInt`, kernel-reducible. -/
def qNeg (q : ℚ) : ℚ := Rat.divInt (-q.num) q.den

/-- `Math.round` on a finite value: the floor of `q + 1/2` (JavaScript rounds
    ties toward positive infinity).  Kernel-reducible. -/
def qFloorHalf (q : ℚ) : ℤ := (2 * q.num + q.den) / (2 * (q.den : ℤ))

theorem qAdd_eq (a b : ℚ) : qAdd a b = a + b := by
  rw [Rat.add_num_den]
  unfold qAdd
  congr 1
  ring

theorem qNeg_eq (q : ℚ) : qNeg q = -q := by
  rw [Rat.neg_def]
  rfl

theorem qFloorHalf_eq (q : ℚ) : qFloorHalf q = ⌊q + 1/2⌋ := by
  have h : q + 1/2 = ((2 * q.num + (q.den : ℤ) : ℤ) : ℚ) / ((2 * q.den : ℕ) : ℚ) := by
    conv_lhs => rw [← Rat.num_div_den q]
    have hd : ((q.den : ℚ)) ≠ 0 := by positivity
    push_cast
    field_simp
    ring
  rw [h, Rat.floor_intCast_div_natCast]
  unfold qFloorHalf
  push_cast
  ring_nf

/-- Whitespace recognized by strict `JSON.parse` (space, tab, newline, CR). -/
def isJsonWs (c : Char) : Bool :=
  c == ' ' || c == '\t' || c == '\n' || c == '\r'

/-- Whitespace matched by the JavaScript regex class `\s` and by
    `String.prototype.trim` (common members; exotic Unicode spaces are not
    exercised by the backend's inputs). -/
def isJsWs (c : Char) : Bool :=
  c == ' ' || c == '\t' || c == '\n' || c == '\r' || c == '\x0b' || c == '\x0c' ||
    c == '\u00a0' || c == '\ufeff'

/-- Value of a list of decimal digits. -/
def natOfDigits (ds : List Char) : Nat :=
  ds.foldl (fun a c => a * 10 + (c.toNat - 48)) 0

/-- The rational `± mant / 10^scale · 10^e`, built with a single `Rat.divInt`. -/
def decValue (mant : ℤ) (scale : ℕ) (e : ℤ) : ℚ :=
  if 0 ≤ e then Rat.divInt (mant * 10 ^ e.toNat) (10 ^ scale)
  else Rat.divInt mant (10 ^ scale * 10 ^ (-e).toNat)

/-- Exponent suffix of a numeric literal: `[+|-] digits`, consuming all input. -/
def expValue? (cs : List Char) : Option ℤ :=
  match cs with
  | '+' :: r => if !r.isEmpty && r.all Char.isDigit then some (natOfDigits r : ℤ) else none
  | '-' :: r => if !r.isEmpty && r.all Char.isDigit then some (-(natOfDigits r : ℤ)) else none
  | r => if !r.isEmpty && r.all Char.isDigit then some (natOfDigits r : ℤ) else none

/-- Fractional part after an optional decimal dot: digits and remainder. -/
def splitFrac (cs : List Char) : List Char × List Char :=
  match cs with
  | '.' :: r => (r.takeWhile Char.isDigit, r.drop (r.takeWhile Char.isDigit).length)
  | r => ([], r)

/-- Value of an unsigned decimal literal `digits [. digits] [(e|E)[+|-]digits]`
    consuming the whole input; `none` when the input is not such a literal. -/
def unsignedNumValue? (cs : List Char) : Option ℚ :=
  let intDs := cs.takeWhile Char.isDigit
  let r1 := cs.drop intDs.length
  let p := splitFrac r1
  if intDs.isEmpty && p.1.isEmpty then none
  else
    let mant : ℤ := (natOfDigits intDs * 10 ^ p.1.length + natOfDigits p.1 : ℕ)
    match p.2 with
    | [] => some (decValue mant p.1.length 0)
    | e :: r3 =>
      if e == 'e' || e == 'E' then (expValue? r3).map (decValue mant p.1.length) else none

/-- JavaScript `Number(string)` restricted to decimal literals: surrounding
    whitespace is trimmed, the empty string is `0`, and anything that is not
    a (signed) decimal literal is `NaN` (`none`).  Radix-prefixed literals
    and `Infinity` are outside the embedding; both would make the computed
    total serialize to `null`, as `NaN` does. -/
def parseNumStr (s : String) : Option ℚ :=
  let cs := ((s.toList.dropWhile isJsWs).reverse.dropWhile isJsWs).reverse
  match cs with
  | [] => some 0
  | '+' :: r => unsignedNumValue? r
  | '-' :: r => (unsignedNumValue? r).map qNeg
  | r => unsignedNumValue? r

/-- JavaScript truthiness of a parsed JSON value. -/
def jsTruthy (v : Json) : Bool :=
  match v with
  | Json.null => false
  | Json.bool b => b
  | Json.num q => if q = 0 then false else true
  | Json.str s => if s = "" then false else true
  | Json.arr _ => true
  | Json.obj _ => true

/-- JavaScript `Number(v)` on a parsed JSON value (`none` is `NaN`).  Arrays
    convert through their string form; nested non-trivial arrays are
    approximated as `NaN`. -/
def jsToNumber (v : Json) : Option ℚ :=
  match v with
  | Json.num q => some q
  | Json.str s => parseNumStr s
  | Json.bool true => some 1
  | Json.bool false => some 0
  | Json.null => some 0
  | Json.arr [] => some 0
  | Json.arr [Json.num q] => some q
  | Json.arr [Json.str s] => parseNumStr s
  | Json.arr [Json.null] => some 0
  | Json.arr _ => none
  | Json.obj _ => none

/-- Addition of JavaScript numbers; `NaN` (`none`) is absorbing. -/
def jsAdd (a b : Option ℚ) : Option ℚ :=
  match a, b with
  | some x, some y => some (qAdd x y)
  | _, _ => none

/-- `Math.round` on a JavaScript number; `Math.round NaN = NaN`. -/
def jsRound (a : Option ℚ) : Option ℚ :=
  match a with
  | some q => some ((qFloorHalf q : ℤ) : ℚ)
  | none => none

/-- Serialization of a JavaScript number by `res.json`: `NaN` (and nonfinite
    values) become JSON `null`. -/
def jsonOfNumber (a : Option ℚ) : Json :=
  match a with
  | some q => Json.num q
  | none => Json.null

theorem dropWhile_length_le (p : Char → Bool) (l : List Char) :
    (l.dropWhile p).length ≤ l.length := by
  induction l with
  | nil => simp
  | cons c r ih =>
    rw [List.dropWhile_cons]
    split
    · exact le_trans ih (Nat.le_succ _)
    · simp

theorem dropWhile_tail_lt (p : Char → Bool) {l tail : List Char} {b : Char}
    (h : l.dropWhile p = b :: tail) : tail.length < l.length := by
  have hle := dropWhile_length_le p l
  rw [h] at hle
  simp only [List.length_cons] at hle
  omega

/-- One global pass of `text.replace(/,\s*([}\]])/g, "$1")`: a comma followed
    (over whitespace) by a closing bracket is removed together with that
    whitespace; scanning resumes after the bracket, exactly as a global
    regex replacement does.  The fuel bounds the recursion and is ample. -/
def fixAux : Nat → List Char → List Char
  | 0, _ => []
  | _ + 1, [] => []
  | fuel + 1, c :: rest =>
    if c = ',' then
      match rest.dropWhile isJsWs with
      | b :: tail =>
        if b == '\x7d' || b == ']' then b :: fixAux fuel tail else c :: fixAux fuel rest
      | [] => c :: fixAux fuel rest
    else c :: fixAux fuel rest

/-- The single textual repair of `safeJSONParse`. -/
def fixTrailingCommas (s : String) : String :=
  String.mk (fixAux (s.toList.length + 1) s.toList)

/-- `str.replace(pat, "")` for a literal pattern `p :: ps`: removes every
    occurrence, scanning left to right without rescanning removed spans.
    The fuel bounds the recursion and is ample. -/
def removeAll (p : Char) (ps : List Char) : Nat → List Char → List Char
  | 0, _ => []
  | _ + 1, [] => []
  | fuel + 1, c :: rest =>
    if c = p ∧ rest.take ps.length = ps then removeAll p ps fuel (rest.drop ps.length)
    else c :: removeAll p ps fuel rest

/-- The fence marker tagged `json`. -/
def fenceJson : List Char := "```json".toList

/-- The bare fence marker. -/
def fenceBare : List Char := "```".toList

/-- `text.replace(/```json/g, "").replace(/```/g, "")`. -/
def stripFences (s : String) : String :=
  String.mk (removeAll '\x60' "``".toList
    ((removeAll '\x60' "``json".toList (s.toList.length + 1) s.toList).length + 1)
    (removeAll '\x60' "``json".toList (s.toList.length + 1) s.toList))

/-- `String.prototype.trim`. -/
def jsTrim (s : String) : String :=
  String.mk (((s.toList.dropWhile isJsWs).reverse.dropWhile isJsWs).reverse)

/-- True of every character except `{`. -/
def notOpenBrace (c : Char) : Bool := if c = '\x7b' then false else true

/-- True of every character except `}`. -/
def notCloseBrace (c : Char) : Bool := if c = '\x7d' then false else true

/-- The candidate span: drop everything before the first `{`, then drop
    everything after the last `}`. -/
def braceCore (cs : List Char) : List Char :=
  ((cs.dropWhile notOpenBrace).reverse.dropWhile notCloseBrace).reverse

/-- The greedy match of `/\{[\s\S]*\}/`: the span from the first `{` through
    the last `}`, when the last `}` lies after the first `{`. -/
def braceSpan (cs : List Char) : Option (List Char) :=
  if braceCore cs = [] then none else some (braceCore cs)

/-- `extractJSON` from src/Backend/app.js: strip fence markers, trim, and
    return the first-`{`-to-last-`}` span, or throw `No JSON found`. -/
def extractJSON (text : String) : Except JsError String :=
  match braceSpan (jsTrim (stripFences text)).toList with
  | some u => Except.ok (String.mk u)
  | none => Except.error (JsError.extractionError "No JSON found")

/-- Unescaped value of a single-character JSON string escape. -/
def escChar? (c : Char) : Option Char :=
  if c = '"' then some '"'
  else if c = '\\' then some '\\'
  else if c = '/' then some '/'
  else if c = 'b' then some '\x08'
  else if c = 'f' then some '\x0c'
  else if c = 'n' then some '\n'
  else if c = 'r' then some '\r'
  else if c = 't' then some '\t'
  else none

/-- Value of a hexadecimal digit. -/
def hexVal? (c : Char) : Option Nat :=
  if c.isDigit then some (c.toNat - 48)
  else if 'a' ≤ c ∧ c ≤ 'f' then some (c.toNat - 87)
  else if 'A' ≤ c ∧ c ≤ 'F' then some (c.toNat - 55)
  else none

/-- Body of a JSON string after the opening quote: returns the decoded
    characters and the input remaining after the closing quote. -/
def parseStringBody : Nat → List Char → Option (List Char × List Char)
  | 0, _ => none
  | Nat.succ fuel, cs =>
    match cs with
    | [] => none
    | '"' :: rest => some ([], rest)
    | '\\' :: 'u' :: h1 :: h2 :: h3 :: h4 :: rest =>
      match hexVal? h1, hexVal? h2, hexVal? h3, hexVal? h4 with
      | some a, some b, some c, some d =>
        (parseStringBody fuel rest).map
          (fun p => (Char.ofNat (((a * 16 + b) * 16 + c) * 16 + d) :: p.1, p.2))
      | _, _, _, _ => none
    | '\\' :: e :: rest =>
      match escChar? e with
      | some c => (parseStringBody fuel rest).map (fun p => (c :: p.1, p.2))
      | none => none
    | c :: rest =>
      if c.toNat < 32 then none
      else (parseStringBody fuel rest).map (fun p => (c :: p.1, p.2))

/-- Exponent part of a JSON number: `[+|-] digits`, returning the remainder. -/
def jsonExp? (cs : List Char) : Option (ℤ × List Char) :=
  match cs with
  | '+' :: r =>
    let ds := r.takeWhile Char.isDigit
    if ds.isEmpty then none else some ((natOfDigits ds : ℤ), r.drop ds.length)
  | '-' :: r =>
    let ds := r.takeWhile Char.isDigit
    if ds.isEmpty then none else some (-(natOfDigits ds : ℤ), r.drop ds.length)
  | r =>
    let ds := r.takeWhile Char.isDigit
    if ds.isEmpty then none else some ((natOfDigits ds : ℤ), r.drop ds.length)

/-- A JSON number token `-? (0|[1-9][0-9]*) (.[0-9]+)? ([eE][+-]?[0-9]+)?`,
    returning its value and the remainder. -/
def parseJsonNumber (cs : List Char) : Option (ℚ × List Char) :=
  let sp : Bool × List Char := match cs with | '-' :: r => (true, r) | r => (false, r)
  let intDs := sp.2.takeWhile Char.isDigit
  if intDs.isEmpty then none
  else if intDs.length > 1 ∧ intDs.head? = some '0' then none
  else
    let r1 := sp.2.drop intDs.length
    let fr : Option (List Char × List Char) :=
      match r1 with
      | '.' :: r2 =>
        let f := r2.takeWhile Char.isDigit
        if f.isEmpty then none else some (f, r2.drop f.length)
      | r => some ([], r)
    match fr with
    | none => none
    | some (fracDs, r3) =>
      let ex : Option (ℤ × List Char) :=
        match r3 with
        | 'e' :: r4 => jsonExp? r4
        | 'E' :: r4 => jsonExp? r4
        | r => some (0, r)
      match ex with
      | none => none
      | some (e, r5) =>
        let mant : ℤ := (natOfDigits intDs * 10 ^ fracDs.length + natOfDigits fracDs : ℕ)
        some (decValue (if sp.1 then -mant else mant) fracDs.length e, r5)

mutual

def parseValue : Nat → List Char → Option (Json × List Char)
  | 0, _ => none
  | Nat.succ fuel, cs =>
    match cs.dropWhile isJsonWs with
    | [] => none
    | c :: rest =>
      if c = '\x7b' then parseObjectBody fuel rest
      else if c = '[' then parseArrayBody fuel rest
      else if c = '"' then
        (parseStringBody fuel rest).map (fun p => (Json.str (String.mk p.1), p.2))
      else if c = 't' then
        if rest.take 3 = ['r', 'u', 'e'] then some (Json.bool true, rest.drop 3) else none
      else if c = 'f' then
        if rest.take 4 = ['a', 'l', 's', 'e'] then some (Json.bool false, rest.drop 4) else none
      else if c = 'n' then
        if rest.take 3 = ['u', 'l', 'l'] then some (Json.null, rest.drop 3) else none
      else (parseJsonNumber (c :: rest)).map (fun p => (Json.num p.1, p.2))

def parseObjectBody : Nat → List Char → Option (Json × List Char)
  | 0, _ => none
  | Nat.succ fuel, cs =>
    match cs.dropWhile isJsonWs with
    | '\x7d' :: rest => some (Json.obj [], rest)
    | other => (parseMembers fuel other).map (fun p => (Json.obj p.1, p.2))

def parseMembers : Nat → List Char → Option (List (String × Json) × List Char)
  | 0, _ => none
  | Nat.succ fuel, cs =>
    match cs.dropWhile isJsonWs with
    | '"' :: r0 =>
      match parseStringBody fuel r0 with
      | none => none
      | some (key, r1) =>
        match r1.dropWhile isJsonWs with
        | ':' :: r2 =>
          match parseValue fuel r2 with
          | none => none
          | some (v, r3) =>
            match r3.dropWhile isJsonWs with
            | ',' :: r4 =>
              (parseMembers fuel r4).map (fun p => ((String.mk key, v) :: p.1, p.2))
            | '\x7d' :: r4 => some ([(String.mk key, v)], r4)
            | _ => none
        | _ => none
    | _ => none

def parseArrayBody : Nat → List Char → Option (Json × List Char)
  | 0, _ => none
  | Nat.succ fuel, cs =>
    match cs.dropWhile isJsonWs with
    | ']' :: rest => some (Json.arr [], rest)
    | other => (parseElems fuel other).map (fun p => (Json.arr p.1, p.2))

def parseElems : Nat → List Char → Option (List Json × List Char)
  | 0, _ => none
  | Nat.succ fuel, cs =>
    match parseValue fuel cs with
    | none => none
    | some (v, r1) =>
      match r1.dropWhile isJsonWs with
      | ',' :: r2 => (parseElems fuel r2).map (fun p => (v :: p.1, p.2))
      | ']' :: r2 => some ([v], r2)
      | _ => none

end

/-- Strict `JSON.parse`: a single JSON value surrounded only by JSON
    whitespace.  The fuel bounds the recursion depth and is ample for any
    input of the given length. -/
def jsonParse (s : String) : Except JsError Json :=
  match parseValue (4 * (s.toList.length + 1)) s.toList with
  | some (v, rest) =>
    if (rest.dropWhile isJsonWs).isEmpty then Except.ok v else Except.error JsError.parseError
  | none => Except.error JsError.parseError

/-- `safeJSONParse` from src/Backend/app.js: strict parse, then on failure a
    single trailing-comma repair followed by one more strict parse. -/
def safeJSONParse (text : String) : Except JsError Json :=
  match jsonParse text with
  | Except.ok v => Except.ok v
  | Except.error _ => jsonParse (fixTrailingCommas text)

/-- Last binding of a key in a JavaScript object built by `JSON.parse`
    (later bindings of a duplicated key win). -/
def lookupLast (fs : List (String × Json)) (k : String) : Option Json :=
  fs.foldl (fun acc p => if p.1 = k then some p.2 else acc) none

/-- The pair assembled by the success response: `parsed.foods` and the
    recomputed `total_calories` value. -/
structure AnalysisResult where
  foods : List Json
  total : Json

/-- `Number(f.calories || 0)`: falsy field values short-circuit to `0`,
    truthy ones go through `Number`. -/
def coerceCalories (v : Option Json) : Option ℚ :=
  match v with
  | none => some 0
  | some j => if jsTruthy j then jsToNumber j else some 0

/-- The contribution of one `foods` element: reading `f.calories` throws a
    `TypeError` when `f` is `null`; on every other value the property read
    yields the field (objects) or `undefined` (primitives and arrays). -/
def calorieOf (f : Json) : Except JsError (Option ℚ) :=
  match f with
  | Json.null => Except.error JsError.typeError
  | Json.obj fs => Except.ok (coerceCalories (lookupLast fs "calories"))
  | _ => Except.ok (coerceCalories none)

/-- `parsed.foods.reduce((sum, f) => sum + Number(f.calories || 0), acc)`. -/
def sumCaloriesFrom (acc : Option ℚ) : List Json → Except JsError (Option ℚ)
  | [] => Except.ok acc
  | f :: rest =>
    match calorieOf f with
    | Except.error e => Except.error e
    | Except.ok c => sumCaloriesFrom (jsAdd acc c) rest

/-- The reduce of the handler, starting from `0`. -/
def sumCalories (foods : List Json) : Except JsError (Option ℚ) :=
  sumCaloriesFrom (some 0) foods

/-- Normalization of `parsed.foods` on an object payload: a non-array (or
    absent) `foods` field is replaced by the empty list.  The other payload
    shapes are handled in `aggregate`: `parsed = null` throws on the
    `parsed.foods` read; on a non-array primitive the sloppy-mode assignment
    `parsed.foods = []` is silently dropped so `parsed.foods.reduce` throws
    on `undefined`; on an array the assignment sticks and the reduce runs
    over `[]`. -/
def aggFoods (fs : List (String × Json)) : List Json :=
  match lookupLast fs "foods" with
  | some (Json.arr xs) => xs
  | _ => []

/-- The rest of the aggregation stage: the reduce and `Math.round`. -/
def aggregate (parsed : Json) : Except JsError AnalysisResult :=
  match parsed with
  | Json.null => Except.error JsError.typeError
  | Json.obj fs =>
    match sumCalories (aggFoods fs) with
    | Except.error e => Except.error e
    | Except.ok t => Except.ok ⟨aggFoods fs, jsonOfNumber (jsRound t)⟩
  | Json.arr _ =>
    match sumCalories [] with
    | Except.error e => Except.error e
    | Except.ok t => Except.ok ⟨[], jsonOfNumber (jsRound t)⟩
  | _ => Except.error JsError.typeError

/-- Outcome of `model.generateContent` (the external call): the raw text of
    a fulfilled response, or a rejection. -/
inductive ModelOutcome where
  | success (rawText : String)
  | failure

/-- HTTP responses the handler can produce (200, 400, 500). -/
inductive HttpResponse where
  | ok (body : Json)
  | badRequest (body : Json)
  | serverError (body : Json)

/-- Body of the degraded success response sent when extraction or parsing
    fails. -/
def degradedBody : Json :=
  Json.obj [("foods", Json.arr []), ("total_calories", Json.num 0),
    ("warning", Json.str "Invalid model response")]

/-- Body of the success response. -/
def responseBody (r : AnalysisResult) : Json :=
  Json.obj [("foods", Json.arr r.foods), ("total_calories", r.total)]

/-- Body of the generic 500 response. -/
def errorBody : Json := Json.obj [("error", Json.str "Failed to analyze image")]

/-- The `POST /analyze-food` handler from the point where the request has
    been received: given whether a file was uploaded and the outcome of the
    model call, it returns the HTTP response together with whether
    `fs.unlinkSync(req.file.path)` ran (the temp-file deletion sits directly
    after the `await` of the model call; a rejection jumps to the catch
    block, which does not delete). -/
def analyzeFood (hasFile : Bool) (outcome : ModelOutcome) : HttpResponse × Bool :=
  if hasFile then
    match outcome with
    | ModelOutcome.failure => (HttpResponse.serverError errorBody, false)
    | ModelOutcome.success raw =>
      match (extractJSON raw).bind safeJSONParse with
      | Except.error _ => (HttpResponse.ok degradedBody, true)
      | Except.ok parsed =>
        match aggregate parsed with
        | Except.ok r => (HttpResponse.ok (responseBody r), true)
        | Except.error _ => (HttpResponse.serverError errorBody, true)
  else (HttpResponse.badRequest (Json.obj [("error", Json.str "Image is required")]), false)

/-- Modelled from the spec (section 4.3): the per-item calorie coercion in
    the spec's words, "numeric string or number → number, else 0". -/
def specCoerceCalories (v : Option Json) : ℚ :=
  match v with
  | some (Json.num q) => q
  | some (Json.str s) => (parseNumStr s).getD 0
  | _ => 0

/-- Modelled from the spec (section 4.3): the calorie contribution of one
    element, `0` when the element has no `calories` field. -/
def specItemCalories (f : Json) : ℚ :=
  match f with
  | Json.obj fs => specCoerceCalories (lookupLast fs "calories")
  | _ => 0

/-- Modelled from the spec (section 4.3): the sum of the per-item calorie
    contributions. -/
def specTotal (foods : List Json) : ℚ := (foods.map specItemCalories).sum

/-- Modelled from the spec (section 4.3): rounding to the nearest integer
    with ties away from zero. -/
def specRoundAway (q : ℚ) : ℤ := if 0 ≤ q then ⌊q + 1/2⌋ else ⌈q - 1/2⌉

/-- Calorie fields on which JavaScript's `Number(x || 0)` agrees with the
    spec's "numeric string or number → number, else 0" coercion: absent,
    `null`, `false`, numbers, and numeric strings. -/
def okCalorieField (f : Json) : Bool :=
  match f with
  | Json.null => false
  | Json.obj fs =>
    match lookupLast fs "calories" with
    | none => true
    | some Json.null => true
    | some (Json.num _) => true
    | some (Json.bool false) => true
    | some (Json.str s) => (parseNumStr s).isSome
    | some _ => false
  | _ => true

/-- `Array.isArray`. -/
def isArr (v : Json) : Bool :=
  match v with
  | Json.arr _ => true
  | _ => false

/-- Occurrence test matching `removeAll`: does `p :: ps` occur in the list? -/
def containsSeq (p : Char) (ps : List Char) : List Char → Bool
  | [] => false
  | c :: rest => (decide (c = p ∧ rest.take ps.length = ps)) || containsSeq p ps rest

theorem removeAll_id {p : Char} {ps : List Char} :
    ∀ fuel l, l.length < fuel → containsSeq p ps l = false → removeAll p ps fuel l = l := by
  intro fuel
  induction fuel with
  | zero =>
    intro l h
    omega
  | succ n ih =>
    intro l hlen hc
    match l with
    | [] => rfl
    | c :: rest =>
      unfold containsSeq at hc
      simp only [Bool.or_eq_false_iff, decide_eq_false_iff_not] at hc
      show (if c = p ∧ rest.take ps.length = ps then removeAll p ps n (rest.drop ps.length)
        else c :: removeAll p ps n rest) = c :: rest
      rw [if_neg hc.1]
      have hr : rest.length < n := by
        simp only [List.length_cons] at hlen
        omega
      rw [ih rest hr hc.2]

theorem containsSeq_extend {p : Char} {ps ext : List Char} :
    ∀ l, containsSeq p ps l = false → containsSeq p (ps ++ ext) l = false := by
  intro l
  induction l with
  | nil => intro _; rfl
  | cons c rest ih =>
    intro h
    unfold containsSeq at h ⊢
    simp only [Bool.or_eq_false_iff, decide_eq_false_iff_not] at h ⊢
    refine ⟨?_, ih h.2⟩
    rintro ⟨hc, htake⟩
    apply h.1
    refine ⟨hc, ?_⟩
    have h2 : (rest.take (ps ++ ext).length).take ps.length = ps := by
      rw [htake]
      exact List.take_left ps ext
    rw [List.take_take] at h2
    have hmin : min ps.length (ps ++ ext).length = ps.length := by
      simp only [List.length_append]
      omega
    rwa [hmin] at h2

theorem head?_some_cons {l : List Char} {c : Char} (h : l.head? = some c) :
    ∃ t, l = c :: t := by
  cases l with
  | nil => simp at h
  | cons a t =>
    simp only [List.head?_cons, Option.some.injEq] at h
    exact ⟨t, by rw [h]⟩

theorem notOpenBrace_false {c : Char} (h : notOpenBrace c = false) : c = '\x7b' := by
  unfold notOpenBrace at h
  by_cases hc : c = '\x7b'
  · exact hc
  · rw [if_neg hc] at h
    cases h

theorem notCloseBrace_false {c : Char} (h : notCloseBrace c = false) : c = '\x7d' := by
  unfold notCloseBrace at h
  by_cases hc : c = '\x7d'
  · exact hc
  · rw [if_neg hc] at h
    cases h

theorem notOpenBrace_true {c : Char} (h : notOpenBrace c = true) : c ≠ '\x7b' := by
  intro hc
  rw [hc] at h
  cases h

theorem notCloseBrace_true {c : Char} (h : notCloseBrace c = true) : c ≠ '\x7d' := by
  intro hc
  rw [hc] at h
  cases h

theorem braceSpan_some {cs u : List Char} (h : braceSpan cs = some u) :
    ∃ a m b, cs = a ++ u ++ b ∧ u = '\x7b' :: (m ++ ['\x7d']) ∧
      (∀ c ∈ a, c ≠ '\x7b') ∧ (∀ c ∈ b, c ≠ '\x7d') := by
  unfold braceSpan at h
  split at h
  · cases h
  · rename_i hne
    injection h with hu
    subst hu
    unfold braceCore at hne ⊢
    set t := cs.dropWhile notOpenBrace with ht
    set u0 := (t.reverse.dropWhile notCloseBrace).reverse with hu0
    have hu0ne : u0 ≠ [] := hne
    have hcs : cs.takeWhile notOpenBrace ++ t = cs :=
      List.takeWhile_append_dropWhile notOpenBrace cs
    have htdec : t = u0 ++ (t.reverse.takeWhile notCloseBrace).reverse := by
      rw [hu0]
      conv_lhs =>
        rw [← List.reverse_reverse t,
          ← List.takeWhile_append_dropWhile notCloseBrace t.reverse]
      rw [List.reverse_append]
    have hw : u0.reverse = t.reverse.dropWhile notCloseBrace := by
      rw [hu0, List.reverse_reverse]
    have hwne : u0.reverse ≠ [] := by
      intro hnil
      apply hu0ne
      have := congrArg List.reverse hnil
      rwa [List.reverse_reverse] at this
    obtain ⟨cw, tw, hwc⟩ : ∃ c tl, u0.reverse = c :: tl := by
      cases hx : u0.reverse with
      | nil => exact absurd hx hwne
      | cons a b => exact ⟨a, b, rfl⟩
    have hcw : cw = '\x7d' := by
      apply notCloseBrace_false
      have := List.head?_dropWhile_not notCloseBrace t.reverse
      rw [← hw, hwc] at this
      simpa using this
    have hu0shape : u0 = tw.reverse ++ ['\x7d'] := by
      have h3 := congrArg List.reverse hwc
      rw [List.reverse_reverse] at h3
      rw [h3, hcw]
      exact List.reverse_cons _ _
    have htne : t ≠ [] := by
      intro hnil
      rw [htdec] at hnil
      rcases List.append_eq_nil.mp hnil with ⟨h1, _⟩
      exact hu0ne h1
    obtain ⟨ct, tt, htc⟩ : ∃ c tl, t = c :: tl := by
      cases hx : t with
      | nil => exact absurd hx htne
      | cons a b => exact ⟨a, b, rfl⟩
    have hct : ct = '\x7b' := by
      apply notOpenBrace_false
      have := List.head?_dropWhile_not notOpenBrace cs
      rw [← ht, htc] at this
      simpa using this
    obtain ⟨c0, t0, hu0c⟩ : ∃ c tl, u0 = c :: tl := by
      cases hx : u0 with
      | nil => exact absurd hx hu0ne
      | cons a b => exact ⟨a, b, rfl⟩
    have hc0 : c0 = '\x7b' := by
      rw [htc, hu0c] at htdec
      injection htdec with h1 _
      rw [← h1, hct]
    have hfinal : ∃ m, u0 = '\x7b' :: (m ++ ['\x7d']) := by
      cases hy : tw.reverse with
      | nil =>
        rw [hy] at hu0shape
        rw [hu0c, hc0] at hu0shape
        simp only [List.nil_append] at hu0shape
        injection hu0shape with hz _
        exact absurd hz (by decide)
      | cons z zs =>
        rw [hy] at hu0shape
        have hz : z = '\x7b' := by
          rw [hu0c, hc0] at hu0shape
          injection hu0shape with h1 _
          exact h1.symm
        refine ⟨zs, ?_⟩
        rw [hu0shape, hz]
        rfl
    obtain ⟨m, hm⟩ := hfinal
    refine ⟨cs.takeWhile notOpenBrace, m, (t.reverse.takeWhile notCloseBrace).reverse,
      ?_, hm, ?_, ?_⟩
    · rw [List.append_assoc, ← htdec]
      exact hcs.symm
    · intro c hcmem
      exact notOpenBrace_true (List.mem_takeWhile_imp hcmem)
    · intro c hcmem
      rw [List.mem_reverse] at hcmem
      exact notCloseBrace_true (List.mem_takeWhile_imp hcmem)

theorem extractJSON_ok_span {s r : String} (h : extractJSON s = Except.ok r) :
    braceSpan (jsTrim (stripFences s)).toList = some r.toList := by
  unfold extractJSON at h
  split at h
  · rename_i u hu
    injection h with h1
    rw [hu, ← h1]
    rfl
  · cases h

theorem jsTrim_id {s : String} (hh : s.toList.head? = some '\x7b')
    (hl : s.toList.getLast? = some '\x7d') : jsTrim s = s := by
  unfold jsTrim
  obtain ⟨t, ht⟩ := head?_some_cons hh
  have h1 : s.toList.dropWhile isJsWs = s.toList := by
    rw [ht]
    exact List.dropWhile_cons_of_neg (by decide)
  rw [h1]
  have h2 : s.toList.reverse.head? = some '\x7d' := by
    rw [List.head?_reverse]
    exact hl
  obtain ⟨t2, ht2⟩ := head?_some_cons h2
  rw [ht2, List.dropWhile_cons_of_neg (by decide), ← ht2, List.reverse_reverse]
  rfl

theorem braceSpan_full {cs : List Char} (hh : cs.head? = some '\x7b')
    (hl : cs.getLast? = some '\x7d') : braceSpan cs = some cs := by
  have hcore : braceCore cs = cs := by
    unfold braceCore
    obtain ⟨t, ht⟩ := head?_some_cons hh
    have h1 : cs.dropWhile notOpenBrace = cs := by
      rw [ht]
      exact List.dropWhile_cons_of_neg (by decide)
    rw [h1]
    have h2 : cs.reverse.head? = some '\x7d' := by
      rw [List.head?_reverse]
      exact hl
    obtain ⟨t2, ht2⟩ := head?_some_cons h2
    rw [ht2, List.dropWhile_cons_of_neg (by decide), ← ht2, List.reverse_reverse]
  unfold braceSpan
  rw [hcore]
  have hne : cs ≠ [] := by
    intro hnil
    rw [hnil] at hh
    simp at hh
  rw [if_neg hne]

theorem mk_toList (s : String) : String.mk s.toList = s := rfl

theorem calorieOf_ok {f : Json} (h : f ≠ Json.null) : ∃ c, calorieOf f = Except.ok c := by
  cases f with
  | null => exact absurd rfl h
  | bool b => exact ⟨_, rfl⟩
  | num q => exact ⟨_, rfl⟩
  | str sv => exact ⟨_, rfl⟩
  | arr xs => exact ⟨_, rfl⟩
  | obj fs => exact ⟨_, rfl⟩

theorem sumCaloriesFrom_ok {foods : List Json} (h : ∀ f ∈ foods, f ≠ Json.null) :
    ∀ acc, ∃ t, sumCaloriesFrom acc foods = Except.ok t := by
  induction foods with
  | nil => exact fun acc => ⟨acc, rfl⟩
  | cons f rest ih =>
    intro acc
    obtain ⟨c, hc⟩ := calorieOf_ok (h f (List.mem_cons_self f rest))
    unfold sumCaloriesFrom
    rw [hc]
    exact ih (fun g hg => h g (List.mem_cons_of_mem f hg)) (jsAdd acc c)

theorem calorieOf_spec {f : Json} (h : okCalorieField f = true) :
    calorieOf f = Except.ok (some (specItemCalories f)) := by
  cases f with
  | null => exact Bool.noConfusion h
  | bool b => rfl
  | num q => rfl
  | str sv => rfl
  | arr xs => rfl
  | obj fs =>
    simp only [okCalorieField] at h
    simp only [calorieOf, specItemCalories]
    cases hv : lookupLast fs "calories" with
    | none =>
      rfl
    | some v =>
      rw [hv] at h
      cases v with
      | null => rfl
      | bool b =>
        cases b with
        | false => rfl
        | true => exact Bool.noConfusion h
      | num q =>
        by_cases hq : q = 0
        · subst hq
          simp [coerceCalories, jsTruthy, specCoerceCalories]
        · simp [coerceCalories, jsTruthy, hq, jsToNumber, specCoerceCalories]
      | str sv =>
        by_cases hs : sv = ""
        · subst hs
          simp only [coerceCalories, jsTruthy, if_pos rfl, specCoerceCalories]
          rfl
        · have h2 : (parseNumStr sv).isSome = true := h
          obtain ⟨q, hq⟩ := Option.isSome_iff_exists.mp h2
          simp [coerceCalories, jsTruthy, hs, jsToNumber, specCoerceCalories, hq]
      | arr xs => exact Bool.noConfusion h
      | obj fs2 => exact Bool.noConfusion h

theorem sumCaloriesFrom_spec {foods : List Json}
    (h : ∀ f ∈ foods, okCalorieField f = true) :
    ∀ q : ℚ, sumCaloriesFrom (some q) foods = Except.ok (some (q + specTotal foods)) := by
  induction foods with
  | nil =>
    intro q
    simp [sumCaloriesFrom, specTotal]
  | cons f rest ih =>
    intro q
    have hf := calorieOf_spec (h f (List.mem_cons_self f rest))
    have hstep : sumCaloriesFrom (some q) (f :: rest)
        = sumCaloriesFrom (jsAdd (some q) (some (specItemCalories f))) rest := by
      conv_lhs => rw [sumCaloriesFrom]
      rw [hf]
    rw [hstep]
    have hadd : jsAdd (some q) (some (specItemCalories f)) = some (q + specItemCalories f) := by
      simp [jsAdd, qAdd_eq]
    rw [hadd, ih (fun g hg => h g (List.mem_cons_of_mem f hg))]
    have htot : specTotal (f :: rest) = specItemCalories f + specTotal rest := by
      simp [specTotal]
    rw [htot]
    congr 2
    ring

theorem lookupLast_append (fs : List (String × Json)) (k k' : String) (v : Json)
    (h : k' ≠ k) : lookupLast (fs ++ [(k', v)]) k = lookupLast fs k := by
  unfold lookupLast
  rw [List.foldl_append]
  simp [h]

/-- C2: `safeJSONParse` returns the strict parse result when strict parsing
    succeeds; on failure it applies exactly one textual repair — removing
    every comma standing (over whitespace) before a closing `\x7d` or `]` —
    and retries strict parsing once, propagating the outcome of that second
    attempt with no further repairs; and the trailing-comma example parses
    successfully to the same value as the explicitly cleaned text. -/
theorem safeJSONParse_single_repair :
    (∀ text v, jsonParse text = Except.ok v → safeJSONParse text = Except.ok v) ∧
    (∀ text e, jsonParse text = Except.error e →
      safeJSONParse text = jsonParse (fixTrailingCommas text)) ∧
    safeJSONParse "\x7b\"foods\": [\x7b\"name\":\"apple\",\"calories\":95,\x7d,],\"total_calories\":95,\x7d"
      = jsonParse "\x7b\"foods\": [\x7b\"name\":\"apple\",\"calories\":95\x7d],\"total_calories\":95\x7d" ∧
    safeJSONParse "\x7b\"foods\": [\x7b\"name\":\"apple\",\"calories\":95,\x7d,],\"total_calories\":95,\x7d"
      = Except.ok (Json.obj [("foods", Json.arr [Json.obj [("name", Json.str "apple"),
          ("calories", Json.num 95)]]), ("total_calories", Json.num 95)]) := by
  refine ⟨?_, ?_, rfl, rfl⟩
  · intro text v h
    unfold safeJSONParse
    rw [h]
  · intro text e h
    unfold safeJSONParse
    rw [h]

/-- Witness for C2 at concrete inputs. -/
theorem safeJSONParse_single_repair_witness :
    safeJSONParse "5" = Except.ok (Json.num 5) ∧
    safeJSONParse "," = jsonParse (fixTrailingCommas ",") :=
  ⟨safeJSONParse_single_repair.1 "5" (Json.num 5) rfl,
   safeJSONParse_single_repair.2.1 "," JsError.parseError rfl⟩

/-- C9: the repair pass is purely textual and applies inside JSON string
    literals as well: the input whose only field is the string `x,]` followed
    by a trailing comma fails strict parsing, the repair also deletes the
    comma inside the string literal, and the repaired parse succeeds with the
    field bound to `x]` — a value different from the original text. -/
theorem repair_applies_inside_string_literals :
    jsonParse "\x7b\"a\":\"x,]\",\x7d" = Except.error JsError.parseError ∧
    fixTrailingCommas "\x7b\"a\":\"x,]\",\x7d" = "\x7b\"a\":\"x]\"\x7d" ∧
    safeJSONParse "\x7b\"a\":\"x,]\",\x7d" = Except.ok (Json.obj [("a", Json.str "x]")]) ∧
    Json.str "x]" ≠ Json.str "x,]" := by
  refine ⟨rfl, by decide, rfl, ?_⟩
  intro h
  injection h with h2
  exact absurd h2 (by decide)

/-- C3: on success, extraction returns the span of the cleaned
    (fence-stripped, trimmed) text running from its first opening brace to
    its last closing brace, verbatim — the cleaned text splits as a
    prefix without opening braces, the result, and a suffix without closing
    braces; and on input that is already clean JSON — no fence markers,
    first character an opening brace, last character a closing brace —
    extraction returns the input string unchanged. -/
theorem extractJSON_first_to_last_brace :
    (∀ s r, extractJSON s = Except.ok r →
      ∃ a m b, (jsTrim (stripFences s)).toList = a ++ r.toList ++ b ∧
        r.toList = '\x7b' :: (m ++ ['\x7d']) ∧
        (∀ c ∈ a, c ≠ '\x7b') ∧ (∀ c ∈ b, c ≠ '\x7d')) ∧
    (∀ s v, jsonParse s = Except.ok v →
      containsSeq '\x60' "``".toList s.toList = false →
      s.toList.head? = some '\x7b' → s.toList.getLast? = some '\x7d' →
      extractJSON s = Except.ok s) := by
  constructor
  · intro s r h
    exact braceSpan_some (extractJSON_ok_span h)
  · intro s v hjson hfence hh hl
    have hfence7 : containsSeq '\x60' "``json".toList s.toList = false := by
      have he : ("``json".toList) = "``".toList ++ "json".toList := rfl
      rw [he]
      exact containsSeq_extend s.toList hfence
    have hstrip : stripFences s = s := by
      unfold stripFences
      rw [removeAll_id (s.toList.length + 1) s.toList (Nat.lt_succ_self _) hfence7]
      rw [removeAll_id (s.toList.length + 1) s.toList (Nat.lt_succ_self _) hfence]
      exact mk_toList s
    have htrim : jsTrim s = s := jsTrim_id hh hl
    unfold extractJSON
    rw [hstrip, htrim, braceSpan_full hh hl]
    rfl

/-- Witness for C3 at concrete inputs. -/
theorem extractJSON_first_to_last_brace_witness :
    (∃ a m b, (jsTrim (stripFences "x\x7ba\x7dy")).toList
        = a ++ ("\x7ba\x7d" : String).toList ++ b ∧
      ("\x7ba\x7d" : String).toList = '\x7b' :: (m ++ ['\x7d']) ∧
      (∀ c ∈ a, c ≠ '\x7b') ∧ (∀ c ∈ b, c ≠ '\x7d')) ∧
    extractJSON "\x7b\x7d" = Except.ok "\x7b\x7d" :=
  ⟨extractJSON_first_to_last_brace.1 "x\x7ba\x7dy" "\x7ba\x7d" rfl,
   extractJSON_first_to_last_brace.2 "\x7b\x7d" (Json.obj []) rfl (by decide) rfl rfl⟩

/-- C8: when the cleaned (fence-stripped, trimmed) text contains no
    `\x7b...\x7d` span at all — no opening brace with a closing brace
    somewhere after it — extraction fails with
    `ExtractionError "No JSON found"`; in particular on the input
    `I cannot determine the contents.`. -/
theorem extractJSON_no_json_error :
    (∀ s, (¬ ∃ a m b, (jsTrim (stripFences s)).toList
        = a ++ '\x7b' :: (m ++ '\x7d' :: b)) →
      extractJSON s = Except.error (JsError.extractionError "No JSON found")) ∧
    extractJSON "I cannot determine the contents."
      = Except.error (JsError.extractionError "No JSON found") := by
  constructor
  · intro s hno
    unfold extractJSON
    cases hbs : braceSpan (jsTrim (stripFences s)).toList with
    | none => rfl
    | some u =>
      exfalso
      obtain ⟨a, m, b, hsplit, hshape, _, _⟩ := braceSpan_some hbs
      apply hno
      refine ⟨a, m, b, ?_⟩
      rw [hsplit, hshape]
      simp
  · rfl

/-- Witness for C8 at a concrete input. -/
theorem extractJSON_no_json_error_witness :
    extractJSON "hello" = Except.error (JsError.extractionError "No JSON found") := by
  apply extractJSON_no_json_error.1
  rintro ⟨a, m, b, h⟩
  have hmem : '\x7b' ∈ (jsTrim (stripFences "hello")).toList := by
    rw [h]
    simp
  exact absurd hmem (by decide)

/-- C10: whenever extraction succeeds, the returned string is non-empty,
    its first character is an opening brace and its last character is a
    closing brace. -/
theorem extractJSON_ok_brace_delimited :
    ∀ s r, extractJSON s = Except.ok r →
      r ≠ "" ∧ r.toList.head? = some '\x7b' ∧ r.toList.getLast? = some '\x7d' := by
  intro s r h
  obtain ⟨a, m, b, _, hshape, _, _⟩ := braceSpan_some (extractJSON_ok_span h)
  refine ⟨?_, ?_, ?_⟩
  · intro hempty
    rw [hempty] at hshape
    exact List.noConfusion hshape
  · rw [hshape]
    rfl
  · rw [hshape]
    rw [show ('\x7b' :: (m ++ ['\x7d'])) = ('\x7b' :: m) ++ ['\x7d'] from rfl]
    exact List.getLast?_concat _

/-- Witness for C10 at a concrete input. -/
theorem extractJSON_ok_brace_delimited_witness :
    ("\x7bq\x7d" : String) ≠ "" ∧
    ("\x7bq\x7d" : String).toList.head? = some '\x7b' ∧
    ("\x7bq\x7d" : String).toList.getLast? = some '\x7d' :=
  extractJSON_ok_brace_delimited "zz\x7bq\x7d!!" "\x7bq\x7d" rfl

/-- C4: when the model call succeeds but extraction or parsing of the raw
    model text fails, the endpoint does not propagate an error: it responds
    HTTP 200 with the degraded payload — empty foods, zero total, and a
    non-empty warning string. -/
theorem degraded_success_on_parse_failure :
    ∀ raw e, (extractJSON raw).bind safeJSONParse = Except.error e →
      analyzeFood true (ModelOutcome.success raw) = (HttpResponse.ok degradedBody, true) ∧
      degradedBody = Json.obj [("foods", Json.arr []), ("total_calories", Json.num 0),
        ("warning", Json.str "Invalid model response")] ∧
      "Invalid model response" ≠ "" := by
  intro raw e h
  refine ⟨?_, rfl, by decide⟩
  simp [analyzeFood, h]

/-- Witness for C4 at a concrete input. -/
theorem degraded_success_on_parse_failure_witness :
    analyzeFood true (ModelOutcome.success "** not json **")
      = (HttpResponse.ok degradedBody, true) :=
  (degraded_success_on_parse_failure "** not json **"
    (JsError.extractionError "No JSON found") rfl).1

/-- C6 (code bug): when the model call rejects, control jumps to the catch
    block, which responds 500 without running `fs.unlinkSync` — the temp
    file survives; deletion runs exactly on the paths where the model call
    returned. -/
theorem unlink_skipped_on_model_failure :
    analyzeFood true ModelOutcome.failure = (HttpResponse.serverError errorBody, false) ∧
    (analyzeFood true ModelOutcome.failure).2 = false ∧
    ∀ raw, (analyzeFood true (ModelOutcome.success raw)).2 = true := by
  refine ⟨rfl, rfl, ?_⟩
  intro raw
  unfold analyzeFood
  cases h : (extractJSON raw).bind safeJSONParse with
  | error e => simp [h]
  | ok parsed =>
    cases h2 : aggregate parsed with
    | ok r => simp [h, h2]
    | error e => simp [h, h2]

/-- C5 counterexample: the aggregation stage raises a `TypeError` on the
    reachable parsed payload whose foods list holds `null` — the
    `.calories` read of a `null` element throws — and the endpoint then
    responds 500 rather than completing the stage. -/
theorem aggregate_raises_on_null_element :
    aggregate (Json.obj [("foods", Json.arr [Json.null])]) = Except.error JsError.typeError ∧
    jsonParse "\x7b\"foods\":[null]\x7d" = Except.ok (Json.obj [("foods", Json.arr [Json.null])]) ∧
    analyzeFood true (ModelOutcome.success "\x7b\"foods\":[null]\x7d")
      = (HttpResponse.serverError errorBody, true) :=
  ⟨rfl, rfl, rfl⟩

/-- C5 (amended): on an object payload whose `foods` field is not an array,
    the field is replaced by the empty sequence and the stage returns empty
    foods and zero total (in particular for a string `foods`); and on every
    object payload whose `foods` elements are all non-`null`, the stage
    completes without raising and returns that `foods` list.  A `null`
    element (and a `null` or primitive payload) makes the stage throw, as
    the counterexample shows. -/
theorem aggregate_no_raise_amended :
    (∀ fs, (∀ v, lookupLast fs "foods" = some v → isArr v = false) →
      aggregate (Json.obj fs) = Except.ok ⟨[], Json.num 0⟩) ∧
    (∀ fs foods, lookupLast fs "foods" = some (Json.arr foods) →
      (∀ f ∈ foods, f ≠ Json.null) →
      ∃ r, aggregate (Json.obj fs) = Except.ok r ∧ r.foods = foods) ∧
    aggregate (Json.obj [("foods", Json.str "none")]) = Except.ok ⟨[], Json.num 0⟩ := by
  refine ⟨?_, ?_, rfl⟩
  · intro fs hv
    have hf : aggFoods fs = [] := by
      unfold aggFoods
      cases hl : lookupLast fs "foods" with
      | none => rfl
      | some v =>
        cases v with
        | arr xs => exact absurd (hv _ hl) (by simp [isArr])
        | null => rfl
        | bool b => rfl
        | num q => rfl
        | str sv => rfl
        | obj o => rfl
    simp only [aggregate]
    rw [hf]
    rfl
  · intro fs foods hl hnn
    have hf : aggFoods fs = foods := by
      unfold aggFoods
      rw [hl]
    obtain ⟨t, ht⟩ := sumCaloriesFrom_ok hnn (some 0)
    have ht2 : sumCalories foods = Except.ok t := ht
    refine ⟨⟨foods, jsonOfNumber (jsRound t)⟩, ?_, rfl⟩
    simp only [aggregate]
    rw [hf, ht2]

/-- Witness for C5 (amended) at concrete inputs. -/
theorem aggregate_no_raise_amended_witness :
    aggregate (Json.obj [("foods", Json.bool true)]) = Except.ok ⟨[], Json.num 0⟩ ∧
    ∃ r, aggregate (Json.obj [("foods", Json.arr [Json.num 5])]) = Except.ok r ∧
      r.foods = [Json.num 5] :=
  ⟨aggregate_no_raise_amended.1 _ (fun v hv => by cases hv; rfl),
   aggregate_no_raise_amended.2.1 _ _ rfl (fun f hf => by
     rw [List.mem_singleton] at hf
     subst hf
     exact fun hc => Json.noConfusion hc)⟩

/-- C7 counterexample: `Math.round` rounds half toward positive infinity,
    not away from zero: a reachable foods list summing to `-1/2` produces
    `total_calories = 0`, while ties-away-from-zero rounding of that sum is
    `-1`. -/
theorem rounding_not_ties_away :
    aggregate (Json.obj [("foods",
        Json.arr [Json.obj [("calories", Json.num (Rat.divInt (-1) 2))]])])
      = Except.ok ⟨[Json.obj [("calories", Json.num (Rat.divInt (-1) 2))]], Json.num 0⟩ ∧
    jsonParse "\x7b\"foods\":[\x7b\"calories\":-0.5\x7d]\x7d"
      = Except.ok (Json.obj [("foods",
          Json.arr [Json.obj [("calories", Json.num (Rat.divInt (-1) 2))]])]) ∧
    specRoundAway (Rat.divInt (-1) 2) = -1 ∧
    (Json.num 0 : Json) ≠ Json.num ((-1 : ℤ) : ℚ) := by
  refine ⟨rfl, rfl, ?_, ?_⟩
  · have h : Rat.divInt (-1) 2 = -(1/2 : ℚ) := by
      rw [Rat.divInt_eq_div]
      norm_num
    rw [h]
    unfold specRoundAway
    rw [if_neg (by norm_num)]
    norm_num
    rw [show (-1 : ℚ) = ((-1 : ℤ) : ℚ) by norm_num]
    exact Int.ceil_intCast (-1)
  · intro h
    injection h with h2
    rw [show ((-1 : ℤ) : ℚ) = -1 by norm_num] at h2
    exact absurd h2 (by norm_num)

/-- C7 (amended): on the success path the summed contributions are rounded
    by `⌊sum + 1/2⌋` — half toward positive infinity; for nonnegative sums
    this coincides with ties-away-from-zero rounding, and the claim's
    examples hold: items summing to `120.4` yield `total_calories = 120`,
    and items summing to `120.5` yield `121`. -/
theorem rounding_floor_half_amended :
    (∀ fs foods q, lookupLast fs "foods" = some (Json.arr foods) →
      sumCalories foods = Except.ok (some q) →
      aggregate (Json.obj fs) = Except.ok ⟨foods, Json.num ((⌊q + 1/2⌋ : ℤ) : ℚ)⟩) ∧
    (∀ q : ℚ, 0 ≤ q → ⌊q + 1/2⌋ = specRoundAway q) ∧
    aggregate (Json.obj [("foods", Json.arr [Json.obj [("calories", Json.num (Rat.divInt 602 10))],
        Json.obj [("calories", Json.num (Rat.divInt 602 10))]])])
      = Except.ok ⟨[Json.obj [("calories", Json.num (Rat.divInt 602 10))],
          Json.obj [("calories", Json.num (Rat.divInt 602 10))]], Json.num 120⟩ ∧
    aggregate (Json.obj [("foods", Json.arr [Json.obj [("calories", Json.num (Rat.divInt 6025 100))],
        Json.obj [("calories", Json.num (Rat.divInt 6025 100))]])])
      = Except.ok ⟨[Json.obj [("calories", Json.num (Rat.divInt 6025 100))],
          Json.obj [("calories", Json.num (Rat.divInt 6025 100))]], Json.num 121⟩ := by
  refine ⟨?_, ?_, rfl, rfl⟩
  · intro fs foods q hl hsum
    have hf : aggFoods fs = foods := by
      unfold aggFoods
      rw [hl]
    simp only [aggregate]
    rw [hf, hsum]
    simp only [jsRound, jsonOfNumber]
    rw [qFloorHalf_eq]
  · intro q hq
    unfold specRoundAway
    rw [if_pos hq]

/-- Witness for C7 (amended) at concrete inputs. -/
theorem rounding_floor_half_amended_witness :
    aggregate (Json.obj [("foods", Json.arr [Json.obj [("calories", Json.num 1)]])])
      = Except.ok ⟨[Json.obj [("calories", Json.num 1)]],
          Json.num ((⌊(qAdd 0 1 : ℚ) + 1/2⌋ : ℤ) : ℚ)⟩ ∧
    ⌊(1 : ℚ) + 1/2⌋ = specRoundAway 1 :=
  ⟨rounding_floor_half_amended.1 _ _ (qAdd 0 1) rfl rfl,
   rounding_floor_half_amended.2.1 1 (by norm_num)⟩

/-- C1 counterexample: a truthy non-numeric calories string coerces through
    `Number` to NaN, not to 0: on the reachable payload whose single item
    has calories `"abc"`, the code computes a NaN total that serializes as
    `null`, while the claimed coercion yields a rounded total of `0`. -/
theorem total_calories_coercion_cex :
    aggregate (Json.obj [("foods", Json.arr [Json.obj [("name", Json.str "x"),
        ("calories", Json.str "abc")]])])
      = Except.ok ⟨[Json.obj [("name", Json.str "x"), ("calories", Json.str "abc")]],
          Json.null⟩ ∧
    jsonParse "\x7b\"foods\":[\x7b\"name\":\"x\",\"calories\":\"abc\"\x7d]\x7d"
      = Except.ok (Json.obj [("foods", Json.arr [Json.obj [("name", Json.str "x"),
          ("calories", Json.str "abc")]])]) ∧
    specTotal [Json.obj [("name", Json.str "x"), ("calories", Json.str "abc")]] = 0 ∧
    Json.null ≠ Json.num ((specRoundAway 0 : ℤ) : ℚ) := by
  refine ⟨rfl, rfl, ?_, ?_⟩
  · have hl : lookupLast [("name", Json.str "x"), ("calories", Json.str "abc")] "calories"
        = some (Json.str "abc") := rfl
    have hnum : parseNumStr "abc" = none := rfl
    have hitem : specItemCalories (Json.obj [("name", Json.str "x"),
        ("calories", Json.str "abc")]) = 0 := by
      simp only [specItemCalories]
      rw [hl]
      simp only [specCoerceCalories]
      rw [hnum]
      rfl
    simp [specTotal, hitem]
  · intro h
    exact Json.noConfusion h

/-- C1 (amended): `total_calories` is always recomputed, never taken from
    the payload — appending a model-supplied `total_calories` field leaves
    the response unchanged; whenever every item's `calories` field is
    absent, `null`, `false`, a number, or a numeric string, the response
    total is the rounded (floor of sum plus one half) spec-coerced sum of
    the per-item contributions; truthy non-numeric values instead coerce to
    NaN, whose total serializes as `null` (see the counterexample).  The
    claim's aggregation example yields foods of length 2 and total 70. -/
theorem total_calories_recomputed :
    (∀ fs v, aggregate (Json.obj (fs ++ [("total_calories", v)])) = aggregate (Json.obj fs)) ∧
    (∀ fs foods, lookupLast fs "foods" = some (Json.arr foods) →
      (∀ f ∈ foods, okCalorieField f = true) →
      aggregate (Json.obj fs)
        = Except.ok ⟨foods, Json.num ((⌊specTotal foods + 1/2⌋ : ℤ) : ℚ)⟩) ∧
    aggregate (Json.obj [("foods", Json.arr [Json.obj [("name", Json.str "rice")],
        Json.obj [("name", Json.str "egg"), ("calories", Json.num 70)]])])
      = Except.ok ⟨[Json.obj [("name", Json.str "rice")],
          Json.obj [("name", Json.str "egg"), ("calories", Json.num 70)]], Json.num 70⟩ ∧
    ([Json.obj [("name", Json.str "rice")],
      Json.obj [("name", Json.str "egg"), ("calories", Json.num 70)]] : List Json).length = 2 ∧
    jsonParse "\x7b\"foods\":[\x7b\"name\":\"rice\"\x7d,\x7b\"name\":\"egg\",\"calories\":70\x7d]\x7d"
      = Except.ok (Json.obj [("foods", Json.arr [Json.obj [("name", Json.str "rice")],
          Json.obj [("name", Json.str "egg"), ("calories", Json.num 70)]])]) := by
  refine ⟨?_, ?_, rfl, rfl, rfl⟩
  · intro fs v
    have h1 : aggFoods (fs ++ [("total_calories", v)]) = aggFoods fs := by
      unfold aggFoods
      rw [lookupLast_append fs "foods" "total_calories" v (by decide)]
    simp only [aggregate, h1]
  · intro fs foods hl hok
    have hf : aggFoods fs = foods := by
      unfold aggFoods
      rw [hl]
    have hsum : sumCalories foods = Except.ok (some (0 + specTotal foods)) :=
      sumCaloriesFrom_spec hok 0
    simp only [aggregate]
    rw [hf, hsum]
    simp only [jsRound, jsonOfNumber]
    rw [qFloorHalf_eq, zero_add]

/-- Witness for C1 (amended) at concrete inputs. -/
theorem total_calories_recomputed_witness :
    aggregate (Json.obj ([("foods", Json.str "none")] ++ [("total_calories", Json.num 999)]))
      = aggregate (Json.obj [("foods", Json.str "none")]) ∧
    aggregate (Json.obj [("foods", Json.arr [Json.obj [("calories", Json.str "70")]])])
      = Except.ok ⟨[Json.obj [("calories", Json.str "70")]],
          Json.num ((⌊specTotal [Json.obj [("calories", Json.str "70")]] + 1/2⌋ : ℤ) : ℚ)⟩ :=
  ⟨total_calories_recomputed.1 _ _,
   total_calories_recomputed.2.1 _ _ rfl (fun f hf => by
     rw [List.mem_singleton] at hf
     subst hf
     rfl)⟩

end FoodAnalyzer
